import Mathlib

/-!
Verification development for the open3D conversion-utility repository.

Shallow embedding conventions:
* Python byte buffers are `List Nat` (one entry per byte).
* A 32-bit little-endian float field is represented by its 32-bit
  bit pattern (a `Nat`): IEEE-754 reinterpretation of a 4-byte window is a
  bijection between byte windows and bit patterns, so equality of decoded
  fields is equality of these words.  No floating-point arithmetic occurs
  anywhere in the decoding paths being verified.
* Python exceptions are modelled with `Except PyErr`; a total Lean function
  models Python code that cannot raise on the modelled inputs.
-/

/-- Python exception kinds that the modelled code can raise. -/
inductive PyErr : Type
  | indexError
  | valueError
  | keyError
deriving DecidableEq

/-- `exOk r` is true iff `r` carries a value (the Python call returned
rather than raised). -/
def exOk {ε α : Type} : Except ε α → Bool
  | .ok _ => true
  | .error _ => false

/-! ## Stride-mode byte decoding (`src/lidar_map/jsonprocess.py`)

`reconstruct_point_cloud_from_json_files` runs, per JSON file:

    for i in range(0, len(data_bytes), point_step):
        x = np.frombuffer(bytearray(data_bytes[i:i+4]), dtype=np.float32)[0]
        y = np.frombuffer(bytearray(data_bytes[i+4:i+8]), dtype=np.float32)[0]
        z = np.frombuffer(bytearray(data_bytes[i+8:i+12]), dtype=np.float32)[0]
        all_points.append([x, y, z])

Python slice `b[i:j]` clamps to the buffer, `np.frombuffer` raises
ValueError when the slice length is not a multiple of 4, and `[0]` raises
IndexError when the slice is empty.  `range(0, n, 0)` raises ValueError. -/

/-- Python slice `payload[i:i+4]` (clamping, never raising). -/
def window (payload : List Nat) (i : Nat) : List Nat :=
  (payload.drop i).take 4

/-- Little-endian 32-bit word built from a byte window
(first byte least significant). -/
def le32 (w : List Nat) : Nat :=
  w.foldr (fun b a => b + 256 * a) 0

/-- `np.frombuffer(bytearray(payload[i:i+4]), dtype=np.float32)[0]`:
ok with the little-endian word when the slice has the full 4 bytes,
IndexError when the slice is empty, ValueError otherwise
(frombuffer demands a multiple of the 4-byte item size). -/
def readF32 (payload : List Nat) (i : Nat) : Except PyErr Nat :=
  if (window payload i).length = 4 then .ok (le32 (window payload i))
  else if (window payload i).length = 0 then .error .indexError
  else .error .valueError

/-- One loop-body iteration at offset `i`: the three field reads in source
order, the first exception propagating. -/
def decodeRecordAt (payload : List Nat) (i : Nat) : Except PyErr (Nat × Nat × Nat) :=
  match readF32 payload i with
  | .error e => .error e
  | .ok x =>
    match readF32 payload (i + 4) with
    | .error e => .error e
    | .ok y =>
      match readF32 payload (i + 8) with
      | .error e => .error e
      | .ok z => .ok (x, y, z)

/-- The loop over a sequence of offsets, accumulating records in order;
an exception at any offset aborts the whole call. -/
def decodeOffsets (payload : List Nat) : List Nat → Except PyErr (List (Nat × Nat × Nat))
  | [] => .ok []
  | i :: rest =>
    match decodeRecordAt payload i with
    | .error e => .error e
    | .ok p =>
      match decodeOffsets payload rest with
      | .error e => .error e
      | .ok ps => .ok (p :: ps)

/-- Python `range(0, stop, step)` for `step > 0`:
`[0, step, 2*step, ...]`, of length `⌈stop/step⌉`. -/
def pyRange (stop step : Nat) : List Nat :=
  (List.range ((stop + step - 1) / step)).map (· * step)

/-- The per-file decoding loop of `reconstruct_point_cloud_from_json_files`:
iterate `range(0, len(payload), point_step)` and decode a 3-field record at
each offset.  `point_step = 0` models Python's `range` ValueError. -/
def reconstruct_points (payload : List Nat) (point_step : Nat) :
    Except PyErr (List (Nat × Nat × Nat)) :=
  if point_step = 0 then .error .valueError
  else decodeOffsets payload (pyRange payload.length point_step)

/-! ## Arity-mode reshape (`convert_to_ply.py`, `read_lidar_msg.py`) -/

/-- Non-overlapping chunking of a flat list into consecutive triples,
dropping a partial tail (`reshape(num_points, 3)` after truncation never
sees a partial tail). -/
def chunk3 {α : Type} : List α → List (α × α × α)
  | a :: b :: c :: t => (a, b, c) :: chunk3 t
  | _ => []

/-- Non-overlapping chunking into consecutive quadruples. -/
def chunk4 {α : Type} : List α → List (α × α × α × α)
  | a :: b :: c :: d :: t => (a, b, c, d) :: chunk4 t
  | _ => []

/-- Flattening of a triple list back to the flat scalar sequence. -/
def flat3 {α : Type} : List (α × α × α) → List α
  | [] => []
  | (a, b, c) :: t => a :: b :: c :: flat3 t

/-- Flattening of a quadruple list back to the flat scalar sequence. -/
def flat4 {α : Type} : List (α × α × α × α) → List α
  | [] => []
  | (a, b, c, d) :: t => a :: b :: c :: d :: flat4 t

/-- The truncating 3-arity policy of `read_point_cloud`
(`convert_to_ply.py` lines 15-22): when the scalar count is not divisible
by 3, print a warning naming the count and the number of dropped scalars
(modelled as the first component `some (count, count % 3)`), truncate the
trailing remainder, and reshape into rows of 3. -/
def reshapeTrunc3 {α : Type} (v : List α) : Option (Nat × Nat) × List (α × α × α) :=
  (if v.length % 3 = 0 then none else some (v.length, v.length % 3),
   chunk3 (v.take (v.length - v.length % 3)))

/-- `parse_point_cloud_data` (`read_lidar_msg.py` lines 60-83): when the
length is not a multiple of 4, print a length-mismatch diagnostic (the
Boolean flag) and return an empty array; otherwise reshape into rows of 4.
The body is wrapped in a try/except that also returns empty, so the
function is total. -/
def parse_point_cloud_data {α : Type} (data : List α) : Bool × List (α × α × α × α) :=
  if data.length % 4 = 0 then (false, chunk4 data) else (true, [])

/-! ## Text extraction and PLY writing (`convert_to_ply.py`)

`read_point_cloud` reads the whole file text and extracts every match of
the Python regex `-?\d+\.?\d*` with `re.findall` (leftmost, greedy,
non-overlapping), converts each token with `np.float32`, then applies the
truncating 3-arity reshape.  `write_ply` writes the fixed ASCII header and
one `x y z` line per record.

Scalars are represented throughout by their decimal numerals (the exact
character tokens the writer emits and the reader extracts).  This is
faithful whenever a numeral is the canonical text form of its float32
value — `repr(np.float32(float(tok))) == tok` — which holds for every
concrete value used below, so token equality decides value equality. -/

/-- After the greedy `\d+` has consumed `ds` leaving `r1`: the optional
`\.?\d*` part takes a dot and then greedily more digits when `r1` starts
with a dot, else the match is just the digits. -/
def matchAfterDigits (ds r1 : List Char) : Option (List Char × List Char) :=
  match r1 with
  | [] => some (ds, [])
  | p :: r2 =>
    if p = '.' then
      some (ds ++ '.' :: r2.takeWhile Char.isDigit, r2.dropWhile Char.isDigit)
    else some (ds, p :: r2)

/-- One attempt of the regex `-?\d+\.?\d*` anchored at the head of the
input: on success, the (leftmost-greedy) matched token and the remaining
input.  A leading `-` matches only when immediately followed by a digit
(the regex engine backtracks over `-?` otherwise). -/
def matchNum : List Char → Option (List Char × List Char)
  | [] => none
  | c :: rest =>
    if c.isDigit then
      matchAfterDigits ((c :: rest).takeWhile Char.isDigit) ((c :: rest).dropWhile Char.isDigit)
    else if c = '-' then
      match rest with
      | d :: _ =>
        if d.isDigit then
          match matchNum rest with
          | some (tok, r) => some ('-' :: tok, r)
          | none => none
        else none
      | [] => none
    else none

/-- `re.findall` scan with explicit fuel (one unit per character consumed;
`cs.length` always suffices). -/
def findNumAux : Nat → List Char → List (List Char)
  | 0, _ => []
  | _ + 1, [] => []
  | fuel + 1, c :: rest =>
    match matchNum (c :: rest) with
    | some (tok, r) => tok :: findNumAux fuel r
    | none => findNumAux fuel rest

/-- `re.findall(r'-?\d+\.?\d*', text)`: scan left to right, at each
position emit the anchored match if any and resume after it, else advance
one character. -/
def findNumbers (cs : List Char) : List (List Char) :=
  findNumAux cs.length cs

/-- `isNumTokCore t` holds when `t` is `\d+\.?\d*` matched exactly:
one or more digits, optionally a dot followed by only digits. -/
def isNumTokCore (t : List Char) : Bool :=
  match t.dropWhile Char.isDigit with
  | [] => !(t.takeWhile Char.isDigit).isEmpty
  | p :: r2 => (p == '.') && !(t.takeWhile Char.isDigit).isEmpty && r2.all Char.isDigit

/-- A full-token numeral `-?\d+\.?\d*` (what the regex matches in one
piece and what the writer emits for a float scalar). -/
def isNumTok (tok : List Char) : Bool :=
  match tok with
  | [] => false
  | c :: t => if c = '-' then isNumTokCore t else isNumTokCore (c :: t)

/-- The decimal digit character for `d < 10`. -/
def digitChar (d : Nat) : Char := Char.ofNat (48 + d)

/-- Decimal numeral writer with fuel (`n + 1` always suffices). -/
def natDigsAux : Nat → Nat → List Char
  | 0, _ => []
  | fuel + 1, n =>
    if n < 10 then [digitChar n]
    else natDigsAux fuel (n / 10) ++ [digitChar (n % 10)]

/-- Python `str(n)` for a natural number. -/
def natDigs (n : Nat) : List Char := natDigsAux (n + 1) n

/-- Header text before the `1.0` of `format ascii 1.0`. -/
def headerA : List Char :=
  ['p', 'l', 'y', '\n', 'f', 'o', 'r', 'm', 'a', 't', ' ', 'a', 's', 'c', 'i', 'i', ' ']

/-- The literal `1.0` written on the `format ascii 1.0` header line. -/
def tk10 : List Char := ['1', '.', '0']

/-- Header text between the format version and the vertex count,
after its leading newline. -/
def headerBt : List Char :=
  ['e', 'l', 'e', 'm', 'e', 'n', 't', ' ', 'v', 'e', 'r', 't', 'e', 'x', ' ']

/-- Header text between the format version and the vertex count. -/
def headerB : List Char := '\n' :: headerBt

/-- Header text after the vertex count, through `end_header`,
after its leading newline. -/
def headerCt : List Char :=
  ['p', 'r', 'o', 'p', 'e', 'r', 't', 'y', ' ', 'f', 'l', 'o', 'a', 't', ' ', 'x',
   '\n', 'p', 'r', 'o', 'p', 'e', 'r', 't', 'y', ' ', 'f', 'l', 'o', 'a', 't', ' ', 'y',
   '\n', 'p', 'r', 'o', 'p', 'e', 'r', 't', 'y', ' ', 'f', 'l', 'o', 'a', 't', ' ', 'z',
   '\n', 'e', 'n', 'd', '_', 'h', 'e', 'a', 'd', 'e', 'r', '\n']

/-- Header text after the vertex count, through `end_header`. -/
def headerC : List Char := '\n' :: headerCt

/-- The data lines: one `x y z` line per record
(`file.write(f"{point[0]} {point[1]} {point[2]}\n")`). -/
def bodyLines : List (List Char × List Char × List Char) → List Char
  | [] => []
  | (x, y, z) :: t => x ++ ' ' :: (y ++ ' ' :: (z ++ '\n' :: bodyLines t))

/-- `write_ply` (`convert_to_ply.py` lines 26-40): the full ASCII file
text for a record list, with `len(points)` as the vertex count. -/
def write_ply (records : List (List Char × List Char × List Char)) : List Char :=
  headerA ++ tk10 ++ headerB ++ natDigs records.length ++ headerC ++ bodyLines records

/-- `read_point_cloud` (`convert_to_ply.py` lines 4-24): extract every
regex token from the file text, then apply the truncating 3-arity
reshape; the first component is the truncation warning (if any). -/
def read_point_cloud (text : List Char) :
    Option (Nat × Nat) × List (List Char × List Char × List Char) :=
  reshapeTrunc3 (findNumbers text)

/-- The C6 scenario input text `1.0 2.0 3.0 4.0 5.0`. -/
def c6text : List Char :=
  ['1', '.', '0', ' ', '2', '.', '0', ' ', '3', '.', '0', ' ',
   '4', '.', '0', ' ', '5', '.', '0']

/-- The numeral `2.0`. -/
def tk20 : List Char := ['2', '.', '0']

/-- The numeral `3.0`. -/
def tk30 : List Char := ['3', '.', '0']

/-- The numeral `1` (a written vertex count of one). -/
def tk1 : List Char := ['1']

/-- The C3 demonstration record set: the single record `(1.0, 2.0, 3.0)`
(every numeral here is the canonical float32 text form of its value). -/
def demoR : List (List Char × List Char × List Char) := [(tk10, tk20, tk30)]

/-! ## Height-map frames and writers (`src/height_map/read_msg.py`) -/

/-- One msgpack height-map frame as a Python dict: each field is `none`
when the corresponding key is absent (`frame[k]` then raises KeyError). -/
structure MsgFrame where
  data : Option (List Int)
  height : Option Nat
  width : Option Nat
  stamp : Option Int
  resolution : Option Int
  origin : Option (List Int)

/-- Python `frame[key]`: the value, or KeyError when absent. -/
def keyGet {β : Type} : Option β → Except PyErr β
  | some v => .ok v
  | none => .error .keyError

/-- Row-major reshape of a flat list into `rows` rows of `w` entries
(exact when the length is `rows * w`, which every caller checks). -/
def chunkRows {α : Type} : Nat → Nat → List α → List (List α)
  | 0, _, _ => []
  | r + 1, w, l => l.take w :: chunkRows r w (l.drop w)

/-- The per-frame artifacts `save_as_images` produces for one frame: the
reshaped height map (the written images are external cv2 calls on it) and
the saved metadata record. -/
structure ImgOut where
  heightMap : List (List Int)
  stamp : Int
  resolution : Int
  origin : List Int

/-- The body of the `save_as_images` loop for one frame, in source order:
`frame['data']`, `frame['height']`, `frame['width']`, the reshape (raising
ValueError on a length mismatch), the external image writes, then the
metadata keys `stamp`, `resolution`, `origin`.  The cv2/np.save calls are
external and modelled as succeeding. -/
def processImageFrame (f : MsgFrame) : Except PyErr ImgOut :=
  match f.data with
  | none => .error .keyError
  | some d =>
    match f.height with
    | none => .error .keyError
    | some h =>
      match f.width with
      | none => .error .keyError
      | some w =>
        if d.length = h * w then
          match f.stamp with
          | none => .error .keyError
          | some st =>
            match f.resolution with
            | none => .error .keyError
            | some res =>
              match f.origin with
              | none => .error .keyError
              | some org => .ok ⟨chunkRows h w d, st, res, org⟩
        else .error .valueError

/-- `save_as_images` (`read_msg.py` lines 67-113): the frame loop has no
per-frame exception handler, so the first failing frame propagates and the
remaining frames are never processed. -/
def save_as_images : List MsgFrame → Except PyErr (List ImgOut)
  | [] => .ok []
  | f :: rest =>
    match processImageFrame f with
    | .error e => .error e
    | .ok o =>
      match save_as_images rest with
      | .error e => .error e
      | .ok os => .ok (o :: os)

/-- Sequential effectful map: the first exception aborts the whole loop
(a Python `for` with no handler). -/
def mapE {α β : Type} (g : α → Except PyErr β) : List α → Except PyErr (List β)
  | [] => .ok []
  | a :: t =>
    match g a with
    | .error e => .error e
    | .ok b =>
      match mapE g t with
      | .error e => .error e
      | .ok bs => .ok (b :: bs)

/-- The archive contents shared by `save_as_numpy` and `save_as_hdf5`:
height maps, timestamps, origins, and the single resolution attribute. -/
structure ArchiveOut where
  height_maps : List (List (List Int))
  timestamps : List Int
  origins : List (List Int)
  resolution : Int

/-- Per-frame work of the `save_as_numpy` loop, in source order: `data`,
`height`, `width`, the reshape, then `stamp` and `origin`. -/
def processNpFrame (f : MsgFrame) : Except PyErr (List (List Int) × Int × List Int) :=
  match f.data with
  | none => .error .keyError
  | some d =>
    match f.height with
    | none => .error .keyError
    | some h =>
      match f.width with
      | none => .error .keyError
      | some w =>
        if d.length = h * w then
          match f.stamp with
          | none => .error .keyError
          | some st =>
            match f.origin with
            | none => .error .keyError
            | some org => .ok (chunkRows h w d, st, org)
        else .error .valueError

/-- `save_as_numpy` (`read_msg.py` lines 115-132): the `processed_data`
dict literal evaluates `data[0]['resolution']` first — IndexError on an
empty frame list — then the loop fills the three per-frame lists; the
`np.savez_compressed` call is external and modelled as succeeding. -/
def save_as_numpy (data : List MsgFrame) : Except PyErr ArchiveOut :=
  match data with
  | [] => .error .indexError
  | f0 :: _ =>
    match f0.resolution with
    | none => .error .keyError
    | some res =>
      match mapE processNpFrame data with
      | .error e => .error e
      | .ok rows =>
        .ok ⟨rows.map (fun r => r.1), rows.map (fun r => r.2.1),
          rows.map (fun r => r.2.2), res⟩

/-- The height-map reshape comprehension of `save_as_hdf5` for one frame. -/
def hdf5Frame (f : MsgFrame) : Except PyErr (List (List Int)) :=
  match f.data with
  | none => .error .keyError
  | some d =>
    match f.height with
    | none => .error .keyError
    | some h =>
      match f.width with
      | none => .error .keyError
      | some w =>
        if d.length = h * w then .ok (chunkRows h w d)
        else .error .valueError

/-- `save_as_hdf5` (`read_msg.py` lines 134-149), in source order: the
three comprehensions over all frames, the external `create_dataset`
calls (modelled as succeeding), then `f.attrs['resolution'] =
data[0]['resolution']` — IndexError on an empty frame list. -/
def save_as_hdf5 (data : List MsgFrame) : Except PyErr ArchiveOut :=
  match mapE hdf5Frame data with
  | .error e => .error e
  | .ok hms =>
    match mapE (fun f => keyGet f.stamp) data with
    | .error e => .error e
    | .ok sts =>
      match mapE (fun f => keyGet f.origin) data with
      | .error e => .error e
      | .ok orgs =>
        match data with
        | [] => .error .indexError
        | f0 :: _ =>
          match f0.resolution with
          | none => .error .keyError
          | some res => .ok ⟨hms, sts, orgs, res⟩

/-! ## msgpack stream readers (`read_msg.py`, `read_lidar_msg.py`) -/

/-- The possible states of a msgpack file for `read_msg_file`: absent,
readable but raising mid-stream after some good frames, or fully
well-formed. -/
inductive MsgFile (α : Type) where
  | missing
  | truncated (good : List α)
  | wellFormed (frames : List α)

/-- `read_msg_file` (`read_msg.py` lines 8-32): FileNotFoundError and any
mid-stream exception are caught, a diagnostic is printed, and `None` is
returned — the locally accumulated `results` of a truncated stream are
discarded, not returned; a well-formed stream yields all frames in stream
order. -/
def read_msg_file {α : Type} : MsgFile α → Option (List α)
  | .missing => none
  | .truncated _ => none
  | .wellFormed fs => some fs

/-- One value produced by the msgpack unpacker in `read_lidar_msg`:
either not a dict (the `isinstance` guard skips it entirely), or a dict
with an optional `'points'` entry and the remaining metadata. -/
inductive LFrame (α μ : Type) where
  | notDict
  | frame (points : Option (List α)) (meta : μ)

/-- `read_lidar_msg` (`read_lidar_msg.py` lines 102-168): per frame, skip
non-dicts; skip frames without `'points'` (appending nothing at all);
otherwise parse the points — appending to `points_list` only when the
parse produced a nonempty array — and always append the metadata. -/
def read_lidar_msg {α μ : Type} :
    List (LFrame α μ) → List (List (α × α × α × α)) × List μ
  | [] => ([], [])
  | .notDict :: rest => read_lidar_msg rest
  | .frame none _ :: rest => read_lidar_msg rest
  | .frame (some pts) m :: rest =>
    let parsed := (parse_point_cloud_data pts).2
    let r := read_lidar_msg rest
    (if parsed.length > 0 then parsed :: r.1 else r.1, m :: r.2)

/-- C10 concrete frames: the first frame's point list has length 1 (not a
multiple of 4, so its parse is empty and skipped), the second parses. -/
def c10frames : List (LFrame Nat Nat) :=
  [.frame (some [9]) 71, .frame (some [1, 2, 3, 4]) 72]

/-- C8 frame whose `'data'` key is absent. -/
def c8badFrame : MsgFrame := ⟨none, some 2, some 2, some 0, some 1, some [0, 0, 0]⟩

/-- C8 well-formed frame. -/
def c8okFrame : MsgFrame :=
  ⟨some [1, 2, 3, 4], some 2, some 2, some 10, some 1, some [0, 0, 0]⟩

/-- C8 second well-formed frame. -/
def c8okFrame2 : MsgFrame :=
  ⟨some [5, 6, 7, 8], some 2, some 2, some 11, some 1, some [0, 1, 0]⟩

/-! ## Lemmas about the stride decoder -/

theorem window_length (payload : List Nat) (i : Nat) :
    (window payload i).length = min 4 (payload.length - i) := by
  simp [window]

theorem readF32_ok (payload : List Nat) (i : Nat) (h : i + 4 ≤ payload.length) :
    readF32 payload i = .ok (le32 (window payload i)) := by
  have hw : (window payload i).length = 4 := by rw [window_length]; omega
  simp [readF32, hw]

theorem readF32_err (payload : List Nat) (i : Nat) (h : payload.length < i + 4) :
    ∃ e, readF32 payload i = Except.error e := by
  have hw : ¬ (window payload i).length = 4 := by rw [window_length]; omega
  unfold readF32
  rw [if_neg hw]
  by_cases h0 : (window payload i).length = 0
  · rw [if_pos h0]; exact ⟨_, rfl⟩
  · rw [if_neg h0]; exact ⟨_, rfl⟩

theorem decodeRecordAt_ok (payload : List Nat) (i : Nat) (h : i + 12 ≤ payload.length) :
    decodeRecordAt payload i =
      .ok (le32 (window payload i), le32 (window payload (i + 4)),
           le32 (window payload (i + 8))) := by
  rw [decodeRecordAt, readF32_ok payload i (by omega),
    readF32_ok payload (i + 4) (by omega), readF32_ok payload (i + 8) (by omega)]

theorem decodeRecordAt_err (payload : List Nat) (i : Nat) (h : payload.length < i + 12) :
    ∃ e, decodeRecordAt payload i = Except.error e := by
  by_cases h1 : i + 4 ≤ payload.length
  · by_cases h2 : i + 8 ≤ payload.length
    · obtain ⟨e, he⟩ := readF32_err payload (i + 8) (by omega)
      exact ⟨e, by rw [decodeRecordAt, readF32_ok payload i h1,
        readF32_ok payload (i + 4) h2, he]⟩
    · obtain ⟨e, he⟩ := readF32_err payload (i + 4) (by omega)
      exact ⟨e, by rw [decodeRecordAt, readF32_ok payload i h1, he]⟩
  · obtain ⟨e, he⟩ := readF32_err payload i (by omega)
    exact ⟨e, by rw [decodeRecordAt, he]⟩

theorem decodeOffsets_ok (payload : List Nat) (l : List Nat)
    (h : ∀ i ∈ l, i + 12 ≤ payload.length) :
    decodeOffsets payload l =
      .ok (l.map fun i => (le32 (window payload i), le32 (window payload (i + 4)),
        le32 (window payload (i + 8)))) := by
  induction l with
  | nil => rfl
  | cons j rest ih =>
    rw [decodeOffsets, decodeRecordAt_ok payload j (h j (by simp)),
      ih (fun i hi => h i (by simp [hi]))]
    simp

theorem decodeOffsets_err (payload : List Nat) (l : List Nat) (i : Nat)
    (hi : i ∈ l) (h : payload.length < i + 12) :
    ∃ e, decodeOffsets payload l = Except.error e := by
  induction l with
  | nil => simp at hi
  | cons j rest ih =>
    rcases List.mem_cons.mp hi with rfl | hmem
    · obtain ⟨e, he⟩ := decodeRecordAt_err payload i h
      exact ⟨e, by rw [decodeOffsets, he]⟩
    · cases hj : decodeRecordAt payload j with
      | error e => exact ⟨e, by rw [decodeOffsets, hj]⟩
      | ok p =>
        obtain ⟨e, he⟩ := ih hmem
        exact ⟨e, by rw [decodeOffsets, hj, he]⟩

theorem pyRange_exact (n stride : Nat) (hs : 0 < stride) :
    pyRange (n * stride) stride = (List.range n).map (· * stride) := by
  unfold pyRange
  have h1 : n * stride + stride - 1 = (stride - 1) + stride * n := by
    rw [Nat.mul_comm]; omega
  rw [h1, Nat.add_mul_div_left _ _ hs, Nat.div_eq_of_lt (by omega), Nat.zero_add]

theorem mem_pyRange_tail (n stride r : Nat) (hr : 0 < r) (hrs : r < stride) :
    n * stride ∈ pyRange (n * stride + r) stride := by
  unfold pyRange
  refine List.mem_map.mpr ⟨n, List.mem_range.mpr ?_, rfl⟩
  have hs0 : 0 < stride := by omega
  have hmul : (n + 1) * stride ≤ n * stride + r + stride - 1 := by
    rw [Nat.succ_mul]
    have : 0 ≤ n * stride := Nat.zero_le _
    omega
  exact Nat.lt_of_lt_of_le (Nat.lt_succ_self n)
    ((Nat.le_div_iff_mul_le hs0).mpr hmul)

/-! ## C1, C2: stride-mode decoding claims -/

/-- C1 counterexample: the spec scenario "byte buffer of 16 bytes,
stride=12, arity=3 → exactly 1 record from bytes [0:12), bytes [12:16)
unused, no error" is false on the code: the loop `range(0, 16, 12)` also
visits offset 12, where the read of bytes `[16:20)` yields an empty slice
and `[0]` raises IndexError. -/
theorem c1_counterexample :
    reconstruct_points (List.range 16) 12 = Except.error PyErr.indexError := by
  rfl

/-- C1 (amended): for a payload of length `n*stride + r` with
`0 < r < stride`, stride-mode decoding does not silently drop the partial
tail: whenever the remainder is shorter than the 12 bytes of one record
(`r < 12`, which always holds for the typical `stride = 12`), the loop
reaches the partial-tail offset `n*stride` and a field read there raises
(IndexError on an empty slice, ValueError on a slice not a multiple of 4
bytes), so the whole call errors instead of yielding `n` records. -/
theorem c1_tail_error (payload : List Nat) (stride n r : Nat)
    (hr0 : 0 < r) (hrs : r < stride) (hr12 : r < 12)
    (hlen : payload.length = n * stride + r) :
    ∃ e, reconstruct_points payload stride = Except.error e := by
  have hs0 : ¬ stride = 0 := by omega
  obtain ⟨e, he⟩ := decodeOffsets_err payload (pyRange payload.length stride) (n * stride)
    (by rw [hlen]; exact mem_pyRange_tail n stride r hr0 hrs)
    (by rw [hlen]; exact Nat.add_lt_add_left hr12 _)
  exact ⟨e, by rw [reconstruct_points, if_neg hs0, he]⟩

/-- C1 witness: the 16-byte buffer with stride 12 instantiates the amended
theorem with `n = 1`, `r = 4`. -/
theorem c1_tail_error_witness :
    0 < 4 ∧ 4 < 12 ∧ (List.range 16).length = 1 * 12 + 4 ∧
      ∃ e, reconstruct_points (List.range 16) 12 = Except.error e :=
  ⟨by decide, by decide, by decide,
    c1_tail_error (List.range 16) 12 1 4 (by decide) (by decide) (by decide) (by decide)⟩

/-- C2 counterexample: the claim quantifies over every stride, but for a
4-byte buffer with stride 4 (length exactly `1 * 4`) the code raises
IndexError at the second field read (`bytes[8:12)` is empty) instead of
yielding one record. -/
theorem c2_counterexample :
    reconstruct_points (List.replicate 4 0) 4 = Except.error PyErr.indexError := by
  rfl

/-- C2 (amended): provided the stride is at least the 12 bytes occupied by
one 3-field record, stride-mode decoding of a payload of length exactly
`n*stride` succeeds with exactly `n` records, the record at step `j`
having as fields the little-endian 32-bit reinterpretations of the byte
sub-windows `[i, i+4)`, `[i+4, i+8)`, `[i+8, i+12)` at offset
`i = j*stride`. -/
theorem c2_exact_stride_decode (payload : List Nat) (stride n : Nat)
    (hs : 12 ≤ stride) (hlen : payload.length = n * stride) :
    reconstruct_points payload stride =
      Except.ok ((List.range n).map fun j =>
        (le32 (window payload (j * stride)), le32 (window payload (j * stride + 4)),
         le32 (window payload (j * stride + 8)))) := by
  have hs0 : ¬ stride = 0 := by omega
  rw [reconstruct_points, if_neg hs0, hlen, pyRange_exact n stride (by omega)]
  rw [decodeOffsets_ok payload _ ?_]
  · rw [List.map_map]
    rfl
  · intro i hi
    obtain ⟨j, hj, rfl⟩ := List.mem_map.mp hi
    have hjn : j + 1 ≤ n := List.mem_range.mp hj
    calc j * stride + 12 ≤ j * stride + stride := by omega
    _ = (j + 1) * stride := by rw [Nat.succ_mul]
    _ ≤ n * stride := Nat.mul_le_mul_right stride hjn
    _ = payload.length := hlen.symm

/-- C2 witness: a 24-byte buffer with stride 12 decodes to exactly 2
records. -/
theorem c2_exact_stride_decode_witness :
    12 ≤ 12 ∧ (List.range 24).length = 2 * 12 ∧
      reconstruct_points (List.range 24) 12 =
        Except.ok ((List.range 2).map fun j =>
          (le32 (window (List.range 24) (j * 12)), le32 (window (List.range 24) (j * 12 + 4)),
           le32 (window (List.range 24) (j * 12 + 8)))) :=
  ⟨by decide, by decide, c2_exact_stride_decode (List.range 24) 12 2 (by decide) (by decide)⟩

/-! ## Lemmas about the arity-mode reshape -/

theorem chunk3_length {α : Type} : (v : List α) → (chunk3 v).length = v.length / 3
  | [] => by simp [chunk3]
  | [_] => by simp [chunk3]
  | [_, _] => by simp [chunk3]
  | a :: b :: c :: t => by
    have ih := chunk3_length t
    simp only [chunk3, List.length_cons, ih]
    omega

theorem chunk4_length {α : Type} : (v : List α) → (chunk4 v).length = v.length / 4
  | [] => by simp [chunk4]
  | [_] => by simp [chunk4]
  | [_, _] => by simp [chunk4]
  | [_, _, _] => by simp [chunk4]
  | a :: b :: c :: d :: t => by
    have ih := chunk4_length t
    simp only [chunk4, List.length_cons, ih]
    omega

theorem flat3_chunk3 {α : Type} :
    (v : List α) → flat3 (chunk3 v) = v.take (v.length - v.length % 3)
  | [] => rfl
  | [_] => rfl
  | [_, _] => rfl
  | a :: b :: c :: t => by
    have ih := flat3_chunk3 t
    have hc : (a :: b :: c :: t).length - (a :: b :: c :: t).length % 3
        = (t.length - t.length % 3) + 3 := by
      simp only [List.length_cons]
      omega
    rw [chunk3, flat3, ih, hc]
    rfl

theorem flat4_chunk4 {α : Type} :
    (v : List α) → flat4 (chunk4 v) = v.take (v.length - v.length % 4)
  | [] => rfl
  | [_] => rfl
  | [_, _] => rfl
  | [_, _, _] => rfl
  | a :: b :: c :: d :: t => by
    have ih := flat4_chunk4 t
    have hc : (a :: b :: c :: d :: t).length - (a :: b :: c :: d :: t).length % 4
        = (t.length - t.length % 4) + 4 := by
      simp only [List.length_cons]
      omega
    rw [chunk4, flat4, ih, hc]
    rfl

/-! ## C5, C6, C7: arity-mode reshape claims -/

/-- C5 (confirmed): for a flat sequence whose length is an exact multiple
of the arity, both arity-mode reshapes — the 3-arity path of
`read_point_cloud` and the 4-arity path of `parse_point_cloud_data` —
yield exactly `len/k` records which are precisely the contiguous
non-overlapping k-chunks of the input in original order (flattening the
records reproduces the input verbatim: no sorting, no deduplication, no
omission). -/
theorem c5_arity_reshape {α : Type} (v3 v4 : List α)
    (h3 : v3.length % 3 = 0) (h4 : v4.length % 4 = 0) :
    ((reshapeTrunc3 v3).2.length = v3.length / 3 ∧ flat3 (reshapeTrunc3 v3).2 = v3) ∧
    ((parse_point_cloud_data v4).2.length = v4.length / 4 ∧
      flat4 (parse_point_cloud_data v4).2 = v4) := by
  refine ⟨⟨?_, ?_⟩, ?_, ?_⟩
  · simp [reshapeTrunc3, h3, chunk3_length]
  · simp [reshapeTrunc3, h3, flat3_chunk3]
  · simp [parse_point_cloud_data, h4, chunk4_length]
  · simp [parse_point_cloud_data, h4, flat4_chunk4]

/-- C5 witness at `v3 = [0,...,5]`, `v4 = [0,...,7]`. -/
theorem c5_arity_reshape_witness :
    (List.range 6).length % 3 = 0 ∧ (List.range 8).length % 4 = 0 ∧
    (((reshapeTrunc3 (List.range 6)).2.length = (List.range 6).length / 3 ∧
        flat3 (reshapeTrunc3 (List.range 6)).2 = List.range 6) ∧
      ((parse_point_cloud_data (List.range 8)).2.length = (List.range 8).length / 4 ∧
        flat4 (parse_point_cloud_data (List.range 8)).2 = List.range 8)) :=
  ⟨by decide, by decide, c5_arity_reshape (List.range 6) (List.range 8) (by decide) (by decide)⟩

/-- C6 (confirmed): under the truncating 3-arity policy of
`read_point_cloud`, an input of length `3q + r` (`r ≠ 0`) produces the
warning diagnostic carrying the count and the number of dropped scalars,
exactly `⌊len/3⌋` records, and the records consist of exactly the first
`len - r` input scalars in order (so the last `r` scalars occupy no
record); concretely, the text `1.0 2.0 3.0 4.0 5.0` warns `(5, 2)` and
yields the single record `(1.0, 2.0, 3.0)`. -/
theorem c6_truncating_policy {α : Type} (v : List α) (r : Nat)
    (hv : v.length % 3 = r) (hr : r ≠ 0) :
    ((reshapeTrunc3 v).1 = some (v.length, r) ∧
      (reshapeTrunc3 v).2.length = v.length / 3 ∧
      flat3 (reshapeTrunc3 v).2 = v.take (v.length - r)) ∧
    read_point_cloud c6text = (some (5, 2), [(tk10, tk20, tk30)]) := by
  subst hv
  refine ⟨⟨?_, ?_, ?_⟩, ?_⟩
  · simp [reshapeTrunc3, hr]
  · rw [reshapeTrunc3]
    simp only [chunk3_length, List.length_take]
    omega
  · rw [reshapeTrunc3]
    simp only [flat3_chunk3, List.length_take, List.take_take]
    congr 1
    omega
  · rfl

/-- C6 witness at the five-token scenario sequence itself. -/
theorem c6_truncating_policy_witness :
    (List.range 5).length % 3 = 2 ∧ (2 : Nat) ≠ 0 ∧
    (((reshapeTrunc3 (List.range 5)).1 = some ((List.range 5).length, 2) ∧
      (reshapeTrunc3 (List.range 5)).2.length = (List.range 5).length / 3 ∧
      flat3 (reshapeTrunc3 (List.range 5)).2 = (List.range 5).take ((List.range 5).length - 2)) ∧
    read_point_cloud c6text = (some (5, 2), [(tk10, tk20, tk30)])) :=
  ⟨by decide, by decide, c6_truncating_policy (List.range 5) 2 (by decide) (by decide)⟩

/-- C7 (confirmed): on a flat sequence whose length is not a multiple of
4, `parse_point_cloud_data` reports the length mismatch through its
printed diagnostic (the flag), returns the empty record sequence, and —
being a total function whose body Python additionally wraps in
try/except — never raises or terminates the process. -/
theorem c7_lidar_mismatch {α : Type} (v : List α) (h : v.length % 4 ≠ 0) :
    parse_point_cloud_data v = (true, []) := by
  simp [parse_point_cloud_data, h]

/-- C7 witness at a 5-element sequence. -/
theorem c7_lidar_mismatch_witness :
    (List.range 5).length % 4 ≠ 0 ∧ parse_point_cloud_data (List.range 5) = (true, []) :=
  ⟨by decide, c7_lidar_mismatch (List.range 5) (by decide)⟩

/-! ## C9, C10: msgpack reader claims -/

/-- C9 (confirmed): `read_msg_file` is total (never raises): a missing
file yields `none`, any exception while reading or unpacking yields
`none` — in particular the partial frames accumulated before a mid-stream
failure are discarded rather than returned, so a failure is `none` and
never the empty (or partial) list — and a well-formed stream yields
`some` of all frames in stream order, so callers must distinguish `none`
from a list. -/
theorem c9_read_msg_file :
    (∀ (α : Type), read_msg_file (MsgFile.missing (α := α)) = none) ∧
    (∀ (α : Type) (g : List α), read_msg_file (MsgFile.truncated g) = none) ∧
    (∀ (α : Type) (fs : List α), read_msg_file (MsgFile.wellFormed fs) = some fs) :=
  ⟨fun _ => rfl, fun _ _ => rfl, fun _ _ => rfl⟩

/-- C10 (confirmed): the two lists `read_lidar_msg` returns are not in
lockstep: `points_list` never outgrows `metadata_list` (a points append
always comes with a metadata append, but not conversely), and on the
concrete two-frame input whose first frame fails to parse, index 0 of
`points_list` holds the second frame's points while index 0 of
`metadata_list` holds the first frame's metadata. -/
theorem c10_lockstep :
    (∀ (α μ : Type) (frames : List (LFrame α μ)),
      (read_lidar_msg frames).1.length ≤ (read_lidar_msg frames).2.length) ∧
    read_lidar_msg c10frames = ([[(1, 2, 3, 4)]], [71, 72]) := by
  constructor
  · intro α μ frames
    induction frames with
    | nil => exact Nat.le_refl 0
    | cons f rest ih =>
      cases f with
      | notDict => simpa [read_lidar_msg] using ih
      | frame pts m =>
        cases pts with
        | none => simpa [read_lidar_msg] using ih
        | some l =>
          by_cases hp : ((parse_point_cloud_data l).2).length > 0
          all_goals simp [read_lidar_msg, hp]
          all_goals omega
  · rfl

/-! ## C4: empty input to the writers -/

/-- C4 counterexample: the claim covers every writer, but `save_as_numpy`
on an empty frame list evaluates `data[0]['resolution']` and raises
IndexError instead of producing an empty-body archive. -/
theorem c4_counterexample :
    save_as_numpy [] = Except.error PyErr.indexError := rfl

/-- C4 (amended): on an empty record/frame list, `write_ply` succeeds and
produces a valid header-only file with vertex count 0 and no data lines
(re-reading it yields zero records), but both `save_as_numpy` and
`save_as_hdf5` fail with IndexError, since each reads
`data[0]['resolution']`. -/
theorem c4_empty_writers :
    write_ply [] = headerA ++ tk10 ++ headerB ++ natDigs 0 ++ headerC ∧
    (read_point_cloud (write_ply [])).2 = [] ∧
    save_as_numpy [] = Except.error PyErr.indexError ∧
    save_as_hdf5 [] = Except.error PyErr.indexError := by
  refine ⟨?_, ?_, rfl, rfl⟩
  · simp [write_ply, bodyLines]
  · rfl

/-! ## C8: per-frame error handling in the multi-frame loops -/

/-- C8 counterexample: in `save_as_images` a per-frame exception is NOT
caught at the per-frame boundary: with a well-formed first frame, a
second frame missing its `'data'` key, and a well-formed third frame, the
KeyError propagates and aborts the whole batch (the third frame is never
processed), contradicting the claim that iteration always continues. -/
theorem c8_counterexample :
    save_as_images [c8okFrame, c8badFrame, c8okFrame2] = Except.error PyErr.keyError := rfl

/-- C8 (amended): in `read_lidar_msg` the per-frame boundary does protect
the batch — processing distributes over the frame stream, so the frames
after any problematic frame still contribute, and no frame can abort the
loop (the function is total) — but in `save_as_images` there is no
per-frame handler: whenever any single frame's processing fails, the
whole batch call fails, wherever that frame sits in the list. -/
theorem c8_frame_loop :
    (∀ (α μ : Type) (a b : List (LFrame α μ)),
      read_lidar_msg (a ++ b) =
        ((read_lidar_msg a).1 ++ (read_lidar_msg b).1,
         (read_lidar_msg a).2 ++ (read_lidar_msg b).2)) ∧
    (∀ (p s : List MsgFrame) (bad : MsgFrame),
      exOk (processImageFrame bad) = false →
      exOk (save_as_images (p ++ bad :: s)) = false) := by
  constructor
  · intro α μ a b
    induction a with
    | nil => simp [read_lidar_msg]
    | cons f rest ih =>
      cases f with
      | notDict => simpa [read_lidar_msg] using ih
      | frame pts m =>
        cases pts with
        | none => simpa [read_lidar_msg] using ih
        | some l =>
          simp only [List.cons_append, read_lidar_msg, ih]
          by_cases hp : ((parse_point_cloud_data l).2).length > 0
          all_goals simp [hp, ih]
  · intro p s bad hbad
    induction p with
    | nil =>
      cases hb : processImageFrame bad with
      | ok o => rw [hb] at hbad; simp [exOk] at hbad
      | error e => simp [save_as_images, hb, exOk]
    | cons f p' ih =>
      cases hf : processImageFrame f with
      | error e => simp [save_as_images, hf, exOk]
      | ok o =>
        rw [List.cons_append, save_as_images, hf]
        cases hrest : save_as_images (p' ++ bad :: s) with
        | error e => simp [exOk]
        | ok os => rw [hrest] at ih; simp [exOk] at ih

/-- C8 witness: the bad frame alone (empty prefix and suffix). -/
theorem c8_frame_loop_witness :
    exOk (processImageFrame c8badFrame) = false ∧
    exOk (save_as_images ([] ++ c8badFrame :: [])) = false :=
  ⟨rfl, c8_frame_loop.2 [] [] c8badFrame rfl⟩

/-! ## Lemmas about the regex scan -/

theorem takeWhile_app_of_all {α : Type} (p : α → Bool) :
    ∀ (ds l : List α), (∀ x ∈ ds, p x = true) →
      (ds ++ l).takeWhile p = ds ++ l.takeWhile p
  | [], _, _ => rfl
  | d :: ds, l, h => by
    have hd : p d = true := h d (by simp)
    simp only [List.cons_append, List.takeWhile_cons, hd, if_true]
    rw [takeWhile_app_of_all p ds l (fun x hx => h x (by simp [hx]))]

theorem dropWhile_app_of_all {α : Type} (p : α → Bool) :
    ∀ (ds l : List α), (∀ x ∈ ds, p x = true) →
      (ds ++ l).dropWhile p = l.dropWhile p
  | [], _, _ => rfl
  | d :: ds, l, h => by
    have hd : p d = true := h d (by simp)
    simp only [List.cons_append, List.dropWhile_cons, hd, if_true]
    exact dropWhile_app_of_all p ds l (fun x hx => h x (by simp [hx]))

theorem takeWhile_all_eq {α : Type} (p : α → Bool) :
    ∀ (l : List α), (∀ x ∈ l, p x = true) → l.takeWhile p = l
  | [], _ => rfl
  | a :: t, h => by
    have ha : p a = true := h a (by simp)
    simp only [List.takeWhile_cons, ha, if_true]
    rw [takeWhile_all_eq p t (fun x hx => h x (by simp [hx]))]

theorem dropWhile_all_eq {α : Type} (p : α → Bool) :
    ∀ (l : List α), (∀ x ∈ l, p x = true) → l.dropWhile p = []
  | [], _ => rfl
  | a :: t, h => by
    have ha : p a = true := h a (by simp)
    simp only [List.dropWhile_cons, ha, if_true]
    exact dropWhile_all_eq p t (fun x hx => h x (by simp [hx]))

theorem matchNum_skip (c : Char) (t : List Char)
    (h1 : c.isDigit = false) (h2 : ¬c = '-') : matchNum (c :: t) = none := by
  simp [matchNum, h1, h2]

theorem matchNum_some_len :
    ∀ (cs tok r : List Char), matchNum cs = some (tok, r) →
      tok.length + r.length = cs.length ∧ tok ≠ []
  | [], tok, r, h => by simp [matchNum] at h
  | c :: rest, tok, r, h => by
    by_cases hc : c.isDigit = true
    · have h' : matchAfterDigits ((c :: rest).takeWhile Char.isDigit)
          ((c :: rest).dropWhile Char.isDigit) = some (tok, r) := by
        simpa only [matchNum, if_pos hc] using h
      have hlen : ((c :: rest).takeWhile Char.isDigit).length
          + ((c :: rest).dropWhile Char.isDigit).length = rest.length + 1 := by
        have h0 := congrArg List.length
          (List.takeWhile_append_dropWhile (p := Char.isDigit) (l := c :: rest))
        rw [List.length_append] at h0
        rw [h0, List.length_cons]
      have hne : (c :: rest).takeWhile Char.isDigit ≠ [] := by
        simp [List.takeWhile_cons, hc]
      rcases hdw : (c :: rest).dropWhile Char.isDigit with _ | ⟨p, r2⟩
      · rw [hdw] at h' hlen
        simp only [matchAfterDigits, Option.some_inj, Prod.mk.injEq] at h'
        obtain ⟨h1, h2⟩ := h'
        subst h1; subst h2
        simp only [List.length_nil, List.length_cons] at hlen ⊢
        exact ⟨by omega, hne⟩
      · rw [hdw] at h' hlen
        by_cases hp : p = '.'
        · simp only [matchAfterDigits, if_pos hp, Option.some_inj, Prod.mk.injEq] at h'
          obtain ⟨h1, h2⟩ := h'
          subst h1; subst h2
          have hr2 : (r2.takeWhile Char.isDigit).length
              + (r2.dropWhile Char.isDigit).length = r2.length := by
            have h0 := congrArg List.length
              (List.takeWhile_append_dropWhile (p := Char.isDigit) (l := r2))
            rw [List.length_append] at h0
            exact h0
          constructor
          · simp only [List.length_append, List.length_cons] at hlen ⊢
            omega
          · intro hcon
            exact hne (List.append_eq_nil.mp hcon).1
        · simp only [matchAfterDigits, if_neg hp, Option.some_inj, Prod.mk.injEq] at h'
          obtain ⟨h1, h2⟩ := h'
          subst h1; subst h2
          simp only [List.length_cons] at hlen ⊢
          exact ⟨by omega, hne⟩
    · by_cases hm : c = '-'
      · rcases rest with _ | ⟨d, rest'⟩
        · simp [matchNum, hc, hm] at h
        · by_cases hd : d.isDigit = true
          · have h' : (match matchNum (d :: rest') with
                | some (tok, r) => some ('-' :: tok, r)
                | none => none) = some (tok, r) := by
              simpa only [matchNum, if_neg hc, if_pos hm, if_pos hd] using h
            rcases hrec : matchNum (d :: rest') with _ | ⟨tok', r'⟩
            · rw [hrec] at h'; exact absurd h' (by simp)
            · rw [hrec] at h'
              obtain ⟨hl, _⟩ := matchNum_some_len (d :: rest') tok' r' hrec
              simp only [Option.some_inj, Prod.mk.injEq] at h'
              obtain ⟨h1, h2⟩ := h'
              subst h1; subst h2
              simp only [List.length_cons] at hl ⊢
              exact ⟨by omega, by simp⟩
          · simp [matchNum, hc, hm, hd] at h
      · simp [matchNum, hc, hm] at h

theorem findNumAux_congr :
    ∀ (f g : Nat) (cs : List Char), cs.length ≤ f → cs.length ≤ g →
      findNumAux f cs = findNumAux g cs
  | 0, g, cs, hf, _ => by
    have hnil : cs = [] := List.length_eq_zero.mp (Nat.le_zero.mp hf)
    subst hnil
    cases g <;> rfl
  | _ + 1, g, [], _, _ => by cases g <;> rfl
  | _ + 1, 0, c :: t, _, hg => by simp at hg
  | f + 1, g + 1, c :: t, hf, hg => by
    have hf' : t.length ≤ f := by simpa using hf
    have hg' : t.length ≤ g := by simpa using hg
    cases hm : matchNum (c :: t) with
    | none =>
      show (match matchNum (c :: t) with
        | some (tok, r) => tok :: findNumAux f r
        | none => findNumAux f t) = (match matchNum (c :: t) with
        | some (tok, r) => tok :: findNumAux g r
        | none => findNumAux g t)
      rw [hm]
      exact findNumAux_congr f g t hf' hg'
    | some pr =>
      obtain ⟨tok, r⟩ := pr
      obtain ⟨hlen, hne⟩ := matchNum_some_len (c :: t) tok r hm
      have hr : r.length ≤ t.length := by
        have h1 : 0 < tok.length := List.length_pos.mpr hne
        simp only [List.length_cons] at hlen
        omega
      show (match matchNum (c :: t) with
        | some (tok, r) => tok :: findNumAux f r
        | none => findNumAux f t) = (match matchNum (c :: t) with
        | some (tok, r) => tok :: findNumAux g r
        | none => findNumAux g t)
      rw [hm]
      show tok :: findNumAux f r = tok :: findNumAux g r
      rw [findNumAux_congr f g r (Nat.le_trans hr hf') (Nat.le_trans hr hg')]

theorem findNumbers_cons_none (c : Char) (t : List Char)
    (h : matchNum (c :: t) = none) : findNumbers (c :: t) = findNumbers t := by
  show findNumAux ((c :: t).length) (c :: t) = findNumAux t.length t
  show (match matchNum (c :: t) with
    | some (tok, r) => tok :: findNumAux t.length r
    | none => findNumAux t.length t) = findNumAux t.length t
  rw [h]

theorem findNumbers_eq_some (cs tok r : List Char) (h : matchNum cs = some (tok, r)) :
    findNumbers cs = tok :: findNumbers r := by
  cases cs with
  | nil => simp [matchNum] at h
  | cons c t =>
    obtain ⟨hlen, hne⟩ := matchNum_some_len (c :: t) tok r h
    have hr : r.length ≤ t.length := by
      have h1 : 0 < tok.length := List.length_pos.mpr hne
      simp only [List.length_cons] at hlen
      omega
    show findNumAux ((c :: t).length) (c :: t) = tok :: findNumbers r
    show (match matchNum (c :: t) with
      | some (tok, r) => tok :: findNumAux t.length r
      | none => findNumAux t.length t) = tok :: findNumbers r
    rw [h]
    show tok :: findNumAux t.length r = tok :: findNumbers r
    rw [findNumAux_congr t.length r.length r hr (Nat.le_refl _)]
    rfl

theorem findNumbers_inert_app :
    ∀ (a t : List Char), (∀ c ∈ a, c.isDigit = false ∧ ¬c = '-') →
      findNumbers (a ++ t) = findNumbers t
  | [], _, _ => rfl
  | c :: a', t, h => by
    have hc := h c (by simp)
    rw [List.cons_append,
      findNumbers_cons_none c (a' ++ t) (matchNum_skip c (a' ++ t) hc.1 hc.2)]
    exact findNumbers_inert_app a' t (fun x hx => h x (by simp [hx]))

theorem isNumTokCore_head :
    ∀ (t : List Char), isNumTokCore t = true → ∃ d t', t = d :: t' ∧ d.isDigit = true
  | [], h => by simp [isNumTokCore] at h
  | d :: t', h => by
    refine ⟨d, t', rfl, ?_⟩
    by_contra hd
    have hd' : d.isDigit = false := by
      cases hdd : d.isDigit
      · rfl
      · exact absurd hdd hd
    simp [isNumTokCore, List.dropWhile_cons, List.takeWhile_cons, hd'] at h

theorem matchNum_core (t : List Char) (hcore : isNumTokCore t = true)
    (c : Char) (hc1 : c.isDigit = false) (hc2 : ¬c = '.') (u : List Char) :
    matchNum (t ++ c :: u) = some (t, c :: u) := by
  have hdsdig : ∀ x ∈ t.takeWhile Char.isDigit, Char.isDigit x = true :=
    fun x hx => List.mem_takeWhile_imp hx
  have hsplit : t.takeWhile Char.isDigit ++ t.dropWhile Char.isDigit = t :=
    List.takeWhile_append_dropWhile Char.isDigit t
  obtain ⟨d, t', hdt, hddig⟩ := isNumTokCore_head t hcore
  have htw : (c :: u).takeWhile Char.isDigit = [] := by
    simp [List.takeWhile_cons, hc1]
  have hdw2 : (c :: u).dropWhile Char.isDigit = c :: u := by
    simp [List.dropWhile_cons, hc1]
  rw [isNumTokCore] at hcore
  rcases hdw : t.dropWhile Char.isDigit with _ | ⟨p, r2⟩
  · rw [hdw, List.append_nil] at hsplit
    have htall : ∀ x ∈ t, Char.isDigit x = true := fun x hx => hdsdig x (by rw [hsplit]; exact hx)
    have hstep : matchNum (t ++ c :: u) =
        matchAfterDigits ((t ++ c :: u).takeWhile Char.isDigit)
          ((t ++ c :: u).dropWhile Char.isDigit) := by
      rw [hdt, List.cons_append]
      simp only [matchNum, if_pos hddig]
    rw [hstep, takeWhile_app_of_all Char.isDigit t (c :: u) htall,
      dropWhile_app_of_all Char.isDigit t (c :: u) htall, htw, hdw2, List.append_nil]
    simp only [matchAfterDigits, if_neg hc2]
  · rw [hdw] at hcore hsplit
    rw [Bool.and_eq_true, Bool.and_eq_true] at hcore
    obtain ⟨⟨hpeq, _⟩, hall'⟩ := hcore
    have hp : p = '.' := eq_of_beq hpeq
    subst hp
    have hr2all : ∀ x ∈ r2, Char.isDigit x = true := by
      intro x hx
      exact List.all_eq_true.mp hall' x hx
    have ht : t = t.takeWhile Char.isDigit ++ '.' :: r2 := hsplit.symm
    have hds : t.takeWhile Char.isDigit = d :: (t'.takeWhile Char.isDigit) := by
      rw [hdt]
      simp [List.takeWhile_cons, hddig]
    have htwr2 : (r2 ++ c :: u).takeWhile Char.isDigit = r2 := by
      rw [takeWhile_app_of_all Char.isDigit r2 (c :: u) hr2all, htw, List.append_nil]
    have hdwr2 : (r2 ++ c :: u).dropWhile Char.isDigit = c :: u := by
      rw [dropWhile_app_of_all Char.isDigit r2 (c :: u) hr2all, hdw2]
    have hdot1 : ('.' : Char).isDigit = false := by decide
    conv_lhs => rw [ht]
    rw [List.append_assoc, List.cons_append, hds, List.cons_append]
    have hstep : matchNum (d :: (t'.takeWhile Char.isDigit ++ '.' :: (r2 ++ c :: u))) =
        matchAfterDigits
          ((d :: (t'.takeWhile Char.isDigit ++ '.' :: (r2 ++ c :: u))).takeWhile Char.isDigit)
          ((d :: (t'.takeWhile Char.isDigit ++ '.' :: (r2 ++ c :: u))).dropWhile Char.isDigit) := by
      simp only [matchNum, if_pos hddig]
    rw [hstep, ← List.cons_append, ← hds]
    rw [takeWhile_app_of_all Char.isDigit _ _ hdsdig,
      dropWhile_app_of_all Char.isDigit _ _ hdsdig]
    have h1 : ('.' :: (r2 ++ c :: u)).takeWhile Char.isDigit = [] := by
      simp [List.takeWhile_cons, hdot1]
    have h2 : ('.' :: (r2 ++ c :: u)).dropWhile Char.isDigit = '.' :: (r2 ++ c :: u) := by
      simp [List.dropWhile_cons, hdot1]
    rw [h1, h2, List.append_nil]
    simp only [matchAfterDigits, if_pos rfl]
    rw [htwr2, hdwr2, ← ht]
    exact if_pos trivial

theorem matchNum_neg_cons (d : Char) (rest' : List Char) (hd : d.isDigit = true) :
    matchNum ('-' :: d :: rest') =
      (match matchNum (d :: rest') with
        | some (tokArg, r) => some ('-' :: tokArg, r)
        | none => none) := by
  show (if ('-' : Char).isDigit = true then
      matchAfterDigits (('-' :: d :: rest').takeWhile Char.isDigit)
        (('-' :: d :: rest').dropWhile Char.isDigit)
    else if ('-' : Char) = '-' then
      if d.isDigit = true then
        match matchNum (d :: rest') with
        | some (tokArg, r) => some ('-' :: tokArg, r)
        | none => none
      else none
    else none) = _
  rw [if_neg (by decide : ¬(('-' : Char).isDigit = true))]
  rw [if_pos (rfl : ('-' : Char) = '-')]
  rw [if_pos hd]

theorem matchNum_tok (tok : List Char) (htok : isNumTok tok = true)
    (c : Char) (hc1 : c.isDigit = false) (hc2 : ¬c = '.') (u : List Char) :
    matchNum (tok ++ c :: u) = some (tok, c :: u) := by
  cases tok with
  | nil => simp [isNumTok] at htok
  | cons c0 t =>
    simp only [isNumTok] at htok
    by_cases h0 : c0 = '-'
    · rw [if_pos h0] at htok
      subst h0
      obtain ⟨d, t', hdt, hddig⟩ := isNumTokCore_head t htok
      rw [List.cons_append, hdt, List.cons_append]
      rw [matchNum_neg_cons d (t' ++ c :: u) hddig]
      rw [← List.cons_append, ← hdt]
      rw [matchNum_core t htok c hc1 hc2 u]
    · rw [if_neg h0] at htok
      exact matchNum_core (c0 :: t) htok c hc1 hc2 u

theorem findNumbers_tok (tok : List Char) (htok : isNumTok tok = true)
    (c : Char) (hc1 : c.isDigit = false) (hc2 : ¬c = '.') (u : List Char) :
    findNumbers (tok ++ c :: u) = tok :: findNumbers (c :: u) :=
  findNumbers_eq_some (tok ++ c :: u) tok (c :: u) (matchNum_tok tok htok c hc1 hc2 u)

theorem digitChar_isDigit (d : Nat) (h : d < 10) : (digitChar d).isDigit = true := by
  interval_cases d <;> decide

theorem natDigsAux_spec :
    ∀ (fuel n : Nat), n < fuel →
      natDigsAux fuel n ≠ [] ∧ ∀ ch ∈ natDigsAux fuel n, ch.isDigit = true
  | 0, n, h => absurd h (Nat.not_lt_zero n)
  | fuel + 1, n, h => by
    rw [natDigsAux]
    by_cases h10 : n < 10
    · rw [if_pos h10]
      refine ⟨by simp, ?_⟩
      intro ch hch
      rw [List.mem_singleton] at hch
      subst hch
      exact digitChar_isDigit n h10
    · rw [if_neg h10]
      have hrec := natDigsAux_spec fuel (n / 10) (by omega)
      refine ⟨by simp, ?_⟩
      intro ch hch
      rcases List.mem_append.mp hch with h1 | h2
      · exact hrec.2 ch h1
      · rw [List.mem_singleton] at h2
        subst h2
        exact digitChar_isDigit _ (Nat.mod_lt n (by omega))

theorem isNumTok_natDigs (n : Nat) : isNumTok (natDigs n) = true := by
  obtain ⟨hne, hdig⟩ := natDigsAux_spec (n + 1) n (Nat.lt_succ_self n)
  rcases hl : natDigsAux (n + 1) n with _ | ⟨d, t⟩
  · exact absurd hl hne
  · have hd : d.isDigit = true := hdig d (by rw [hl]; exact List.mem_cons_self d t)
    have hall : ∀ x ∈ d :: t, Char.isDigit x = true := by
      intro x hx
      apply hdig
      rw [hl]
      exact hx
    have hdm : ¬d = '-' := by
      intro hdd
      rw [hdd] at hd
      exact absurd hd (by decide)
    rw [natDigs, hl]
    simp only [isNumTok, if_neg hdm]
    simp [isNumTokCore, dropWhile_all_eq Char.isDigit (d :: t) hall,
      takeWhile_all_eq Char.isDigit (d :: t) hall]

theorem flat3_length {α : Type} :
    ∀ (l : List (α × α × α)), (flat3 l).length = 3 * l.length
  | [] => rfl
  | (a, b, c) :: t => by
    simp only [flat3, List.length_cons, flat3_length t]
    omega

theorem findNumbers_body :
    ∀ (R : List (List Char × List Char × List Char)),
      (∀ rec ∈ R, isNumTok rec.1 = true ∧ isNumTok rec.2.1 = true ∧ isNumTok rec.2.2 = true) →
      findNumbers (bodyLines R) = flat3 R
  | [], _ => rfl
  | (x, y, z) :: t, h => by
    obtain ⟨hx, hy, hz⟩ := h (x, y, z) (List.mem_cons_self _ t)
    rw [bodyLines]
    rw [findNumbers_tok x hx ' ' (by decide) (by decide)]
    rw [findNumbers_cons_none ' ' _ (matchNum_skip ' ' _ (by decide) (by decide))]
    rw [findNumbers_tok y hy ' ' (by decide) (by decide)]
    rw [findNumbers_cons_none ' ' _ (matchNum_skip ' ' _ (by decide) (by decide))]
    rw [findNumbers_tok z hz '\n' (by decide) (by decide)]
    rw [findNumbers_cons_none '\n' _ (matchNum_skip '\n' _ (by decide) (by decide))]
    rw [findNumbers_body t (fun r hr => h r (List.mem_cons_of_mem _ hr))]
    rfl

theorem findNumbers_write_ply (R : List (List Char × List Char × List Char))
    (hR : ∀ rec ∈ R, isNumTok rec.1 = true ∧ isNumTok rec.2.1 = true ∧ isNumTok rec.2.2 = true) :
    findNumbers (write_ply R) = tk10 :: natDigs R.length :: flat3 R := by
  rw [write_ply]
  simp only [List.append_assoc]
  rw [findNumbers_inert_app headerA _ (by decide)]
  have hB : ∀ (W : List Char), headerB ++ W = '\n' :: (headerBt ++ W) := fun W => rfl
  rw [hB]
  rw [findNumbers_tok tk10 (by decide) '\n' (by decide) (by decide)]
  rw [findNumbers_cons_none '\n' _ (matchNum_skip '\n' _ (by decide) (by decide))]
  rw [findNumbers_inert_app headerBt _ (by decide)]
  have hC : ∀ (W : List Char), headerC ++ W = '\n' :: (headerCt ++ W) := fun W => rfl
  rw [hC]
  rw [findNumbers_tok (natDigs R.length) (isNumTok_natDigs R.length) '\n' (by decide) (by decide)]
  rw [findNumbers_cons_none '\n' _ (matchNum_skip '\n' _ (by decide) (by decide))]
  rw [findNumbers_inert_app headerCt _ (by decide)]
  rw [findNumbers_body R hR]

/-! ## C3: the write/read round trip -/

/-- C3 counterexample: re-reading the file written for the single record
`(1.0, 2.0, 3.0)` does not reproduce it — the reader's regex also
extracts `1.0` from the `format ascii 1.0` header line and the vertex
count `1`, so the tokens are `1.0, 1, 1.0, 2.0, 3.0`; the truncating
reshape then drops the last two and yields the single wrong record
`(1.0, 1, 1.0)` (as float32 values: `(1.0, 1.0, 1.0)` ≠ `(1.0, 2.0,
3.0)`, a genuine value difference, not a formatting artifact). -/
theorem c3_counterexample :
    (read_point_cloud (write_ply demoR)).2 = [(tk10, tk1, tk10)] ∧
    ¬(read_point_cloud (write_ply demoR)).2 = demoR := by
  constructor
  · rfl
  · decide

/-- C3 (amended): writing a record set `R` (of numeral scalars) and
re-reading does not reproduce `R` in general: the regex extractor also
captures the `1.0` of the `format ascii 1.0` header line and the vertex
count, so re-reading yields the 3-chunks of the first `3·|R|` tokens of
`1.0, |R|, x₀, y₀, z₀, …` — every coordinate shifted two positions, the
last two dropped by the truncating reshape.  The round trip reproduces
`R` only in degenerate cases (e.g. the empty record set). -/
theorem c3_roundtrip_shifted (R : List (List Char × List Char × List Char))
    (hR : ∀ rec ∈ R, isNumTok rec.1 = true ∧ isNumTok rec.2.1 = true ∧ isNumTok rec.2.2 = true) :
    (read_point_cloud (write_ply R)).2 =
      chunk3 ((tk10 :: natDigs R.length :: flat3 R).take (3 * R.length)) := by
  rw [read_point_cloud, findNumbers_write_ply R hR, reshapeTrunc3]
  show chunk3 ((tk10 :: natDigs R.length :: flat3 R).take
      ((tk10 :: natDigs R.length :: flat3 R).length
        - (tk10 :: natDigs R.length :: flat3 R).length % 3)) =
    chunk3 ((tk10 :: natDigs R.length :: flat3 R).take (3 * R.length))
  have hlen : (tk10 :: natDigs R.length :: flat3 R).length = 3 * R.length + 2 := by
    simp [flat3_length]
  rw [hlen]
  have h2 : 3 * R.length + 2 - (3 * R.length + 2) % 3 = 3 * R.length := by omega
  rw [h2]

/-- C3 witness: the shifted-roundtrip theorem instantiated at the
one-record set `(1.0, 2.0, 3.0)`. -/
theorem c3_roundtrip_shifted_witness :
    (∀ rec ∈ demoR, isNumTok rec.1 = true ∧ isNumTok rec.2.1 = true ∧ isNumTok rec.2.2 = true) ∧
    (read_point_cloud (write_ply demoR)).2 =
      chunk3 ((tk10 :: natDigs demoR.length :: flat3 demoR).take (3 * demoR.length)) :=
  ⟨by decide, c3_roundtrip_shifted demoR (by decide)⟩
